import Mathlib

/-!
Shallow embedding of the TDD code-synthesis loop (`src/tdd.py`) and proofs
about it.  The external collaborators (the generation oracle `anthropic`,
the `npm test` subprocess, and the SHA-256 digest from `hashlib`) are
modelled as an abstract environment `Env`; every side effect (oracle call,
destination-file write, verification run, cache update) is recorded in an
explicit event trace so that the control flow of the Python source can be
reasoned about directly.
-/

namespace Tdd

/-- ASCII letter, the `[a-zA-Z]` class of the code-block regex. -/
def isAsciiAlpha (c : Char) : Bool :=
  (decide ('a' ≤ c) && decide (c ≤ 'z')) || (decide ('A' ≤ c) && decide (c ≤ 'Z'))

/-- ASCII digit, the `0-9` part of the test-name regex class. -/
def isAsciiDigit (c : Char) : Bool :=
  decide ('0' ≤ c) && decide (c ≤ '9')

/-- Python regex `\s` / `str.strip` whitespace (ASCII range). -/
def isPyWs (c : Char) : Bool :=
  decide (c = ' ') || decide (c = '\t') || decide (c = '\n') ||
  decide (c = '\r') || decide (c = '\x0b') || decide (c = '\x0c')

/-- The backtick character (written via its code point). -/
def btick : Char := Char.ofNat 96

/-- The triple-backtick fence of `extract_code_from_response`'s regex. -/
def fence : List Char := [btick, btick, btick]

/-- Whether `pat` is an initial segment of `l` (character-exact). -/
def startsWithList : List Char → List Char → Bool
  | [], _ => true
  | _ :: _, [] => false
  | p :: ps, c :: cs => decide (p = c) && startsWithList ps cs

/-- Fuel-indexed worker for Python `str.replace` (replace every
non-overlapping occurrence, scanning left to right). -/
def replaceAllF (pat rep : List Char) : Nat → List Char → List Char
  | 0, l => l
  | _ + 1, [] => []
  | f + 1, c :: cs =>
    if decide (0 < pat.length) && startsWithList pat (c :: cs) then
      rep ++ replaceAllF pat rep f ((c :: cs).drop pat.length)
    else
      c :: replaceAllF pat rep f cs

/-- Python `str.replace(pat, rep)` on character lists. -/
def replaceAll (pat rep l : List Char) : List Char :=
  replaceAllF pat rep l.length l

/-- Python `s.replace(pat, rep)` on strings. -/
def pyReplace (s pat rep : String) : String :=
  String.mk (replaceAll pat.toList rep.toList s.toList)

/-- Maximal `[a-zA-Z]*` run dropped from the front: the optional language
tag of the opening fence, `(?:[a-zA-Z]+)?`. -/
def dropAlpha : List Char → List Char
  | [] => []
  | c :: cs => if isAsciiAlpha c = true then dropAlpha cs else c :: cs

/-- Scan for the first `"\n" ++ fence` occurrence (the lazy `(.*?)\n` close
of the code-block regex); returns the text before it and the text after the
closing fence. -/
def splitAtCloseFence : List Char → Option (List Char × List Char)
  | [] => none
  | c :: cs =>
    if decide (c = '\n') && startsWithList fence cs then
      some ([], cs.drop 3)
    else
      match splitAtCloseFence cs with
      | some p => some (c :: p.1, p.2)
      | none => none

/-- Attempt the regex tail after an opening `fence`: optional alpha tag,
a newline, then the lazily-matched interior up to `"\n" ++ fence`. -/
def matchAfterFence (cs : List Char) : Option (List Char) :=
  match dropAlpha cs with
  | c :: rest =>
    if c = '\n' then
      match splitAtCloseFence rest with
      | some p => some p.1
      | none => none
    else none
  | [] => none

/-- Leftmost search of the code-block regex over the response text,
advancing one character at a time exactly like the regex engine. -/
def searchCodeBlock : List Char → Option (List Char)
  | [] => none
  | c :: cs =>
    if startsWithList fence (c :: cs) = true then
      match matchAfterFence (cs.drop 2) with
      | some body => some body
      | none => searchCodeBlock cs
    else searchCodeBlock cs

/-- Model of `extract_code_from_response` from `tdd.py`: return the interior of the
first fenced code block, or the whole response when no block matches. -/
def extract_code_from_response (response : String) : String :=
  match searchCodeBlock response.toList with
  | some body => String.mk body
  | none => response

/-- Whether the text contains a newline immediately followed by a closing
fence anywhere — the condition under which the lazy interior of the
code-block regex would terminate early. -/
def hasCloseFence : List Char → Bool
  | [] => false
  | c :: cs => (decide (c = '\n') && startsWithList fence cs) || hasCloseFence cs

/-- Character class `[A-Za-z0-9\s` ++ backtick ++ `_]` of the failing-test-name
regex in `extract_failing_test_names`. -/
def isClassChar (c : Char) : Bool :=
  isAsciiAlpha c || isAsciiDigit c || isPyWs c || decide (c = btick) || decide (c = '_')

/-- Nonempty list whose first element is Python whitespace. -/
def headIsWs (l : List Char) : Bool :=
  match l with
  | [] => false
  | c :: _ => isPyWs c

/-- Attempt the regex tail after a bullet `●`: greedy `\s+`, greedy captured
class run, backtracked trailing `\s+`, the literal `›`, then `.*` to the end
of the line.  Returns the captured group and the scanner's resumption point. -/
def matchBullet (cs : List Char) : Option (List Char × List Char) :=
  let R := cs.takeWhile isClassChar
  let rest := cs.dropWhile isClassChar
  match rest with
  | sym :: rest2 =>
    if decide (sym = '›') && decide (3 ≤ R.length) && headIsWs R && headIsWs R.reverse then
      let wlen := (R.takeWhile isPyWs).length
      let a1len := min wlen (R.length - 2)
      some ((R.drop a1len).dropLast, rest2.dropWhile (fun c => decide (c ≠ '\n')))
    else none
  | [] => none

/-- Fuel-indexed `re.findall` scan for the failing-test-name regex. -/
def findFailingF : Nat → List Char → List (List Char)
  | 0, _ => []
  | _ + 1, [] => []
  | f + 1, c :: cs =>
    if c = '●' then
      match matchBullet cs with
      | some p => p.1 :: findFailingF f p.2
      | none => findFailingF f cs
    else findFailingF f cs

/-- Python `str.strip()`: drop whitespace from both ends. -/
def stripChars (l : List Char) : List Char :=
  (((l.dropWhile isPyWs).reverse.dropWhile isPyWs)).reverse

/-- Model of `TestWatcher.extract_failing_test_names`: find every regex match in the
runner diagnostics and strip each captured title. -/
def extract_failing_test_names (stderr : String) : List String :=
  (findFailingF stderr.toList.length stderr.toList).map (fun g => String.mk (stripChars g))

/-- The pattern `".test.ts"` as characters. -/
def tsTestPat : List Char := ['.', 't', 'e', 's', 't', '.', 't', 's']

/-- The replacement `".ts"` as characters. -/
def tsPat : List Char := ['.', 't', 's']

/-- Destination implementation filename:
`test_path.name.replace('.test.ts', '.ts')` (the `src/` directory prefix is
path plumbing and is omitted). -/
def destName (fileName : String) : String :=
  pyReplace fileName ".test.ts" ".ts"

/-- Filename component after the last slash (`Path(...).name`). -/
def baseName (p : String) : String :=
  String.mk ((p.toList.reverse.takeWhile (fun c => decide (c ≠ '/'))).reverse)

/-- Whether the string ends with the given text (`str.endswith`). -/
def endsWithStr (s pat : String) : Bool :=
  startsWithList pat.toList.reverse s.toList.reverse

/-- Result of one external test run (`subprocess.CompletedProcess`):
exit code and standard-error text. -/
structure VerifyResult where
  returncode : Int
  stderr : String
deriving DecidableEq

/-- The external collaborators, abstracted: the SHA-256 digest of
`hash_file_content` (an arbitrary function of the content — no claim depends
on its internals), the oracle's response to the i-th generation request of a
run, the outcome of the i-th per-file test run, and the outcome of the
startup whole-suite `npm test`. -/
structure Env where
  hashFn : String → String
  oracleResponse : Nat → String
  verifyOutcome : Nat → VerifyResult
  initialRunResult : VerifyResult

/-- The content-addressed cache `self.cache` as an association list from
fingerprint to accepted implementation text. -/
abbrev Cache := List (String × String)

/-- First value bound to the key, `self.cache[h]` / `h in self.cache`. -/
def cacheLookup : Cache → String → Option String
  | [], _ => none
  | (k, v) :: rest, h => if k = h then some v else cacheLookup rest h

/-- Python dict assignment `self.cache[h] = code`. -/
def cachePut : Cache → String → String → Cache
  | [], h, c => [(h, c)]
  | (k, v) :: rest, h, c =>
    if k = h then (k, c) :: rest else (k, v) :: cachePut rest h c

/-- Python `del self.cache[h]`. -/
def cacheErase : Cache → String → Cache
  | [], _ => []
  | (k, v) :: rest, h =>
    if k = h then cacheErase rest h else (k, v) :: cacheErase rest h

/-- Membership test `h in self.cache`. -/
def cacheContains (c : Cache) (h : String) : Bool :=
  (cacheLookup c h).isSome

/-- The mutable fields of `TestWatcher` that the claims concern. -/
structure WatcherState where
  cache : Cache
  initial_run_complete : Bool
deriving DecidableEq

/-- Observable side effects of the controller, recorded in order. -/
inductive Event where
  | oracleCall (prompt : String)
  | write (path code : String)
  | verify (specPath : String) (returncode : Int) (stderr : String)
  | cacheInsert (fingerprint code : String)
  | cacheDelete (fingerprint : String)
deriving DecidableEq

/-- The synthesis prompt of both retry loops: a fixed instruction, extended
with the failing test names and the flattened error text when the previous
attempt failed (`if error_messages:`), followed by the specification text. -/
def buildPrompt (testContent errMsgs : String) (failedTests : List String) : String :=
  let pfx :=
    if errMsgs ≠ "" then
      "Implement the following TypeScript code to pass the provided tests. Do not include any other text except the code itself. The previous attempt failed with the following tests: "
        ++ String.intercalate ", " failedTests
        ++ " and the following errors: " ++ errMsgs
        ++ ".  You must implement the tests to match the expected output as described by the tests."
    else
      "Implement the following TypeScript code to pass the provided tests. Do not include any other text except the code itself."
  pfx ++ "\n\n" ++ testContent

/-- Model of `TestWatcher.write_code_and_run_tests`: write the candidate to the
destination file derived from the test filename, then run `npm test` scoped
to that specification; returns the run's result and the recorded effects. -/
def write_code_and_run_tests (env : Env) (i : Nat) (fname code : String) :
    VerifyResult × List Event :=
  let vr := env.verifyOutcome i
  (vr, [Event.write (destName fname) code,
        Event.verify fname vr.returncode vr.stderr])

/-- The per-file retry loop of `process_test_file` (`while not success and
attempts < max_attempts`), with the remaining attempt budget as the first
argument and the call counter threading the oracle/runner indices.  On a
passing run the candidate is recorded in the cache; on a failing run any
cache entry for the fingerprint is dropped and the flattened stderr and
extracted failing names feed the next prompt. -/
def processLoop (env : Env) (testContent fname testHash : String) :
    Nat → Nat → String → List String → Cache → Cache × List Event
  | 0, _, _, _, cache => (cache, [])
  | n + 1, i, errMsgs, failedT, cache =>
    let code := extract_code_from_response (env.oracleResponse i)
    let w := write_code_and_run_tests env i fname code
    if w.1.returncode = 0 then
      (cachePut cache testHash code,
       Event.oracleCall (buildPrompt testContent errMsgs failedT)
         :: (w.2 ++ [Event.cacheInsert testHash code]))
    else
      let cache2 := if cacheContains cache testHash then cacheErase cache testHash else cache
      let delEvs := if cacheContains cache testHash then [Event.cacheDelete testHash] else []
      let rest := processLoop env testContent fname testHash n (i + 1)
          (pyReplace w.1.stderr "\n" " ") (extract_failing_test_names w.1.stderr) cache2
      (rest.1,
       Event.oracleCall (buildPrompt testContent errMsgs failedT)
         :: (w.2 ++ delEvs ++ rest.2))

/-- Model of `TestWatcher.process_test_file`: fingerprint the content; on a cache hit
write the cached candidate and verify directly, returning regardless of the
outcome; otherwise run the retry loop with a budget of 5 attempts. -/
def process_test_file (env : Env) (st : WatcherState) (fname content : String) :
    WatcherState × List Event :=
  let testHash := env.hashFn content
  match cacheLookup st.cache testHash with
  | some cachedCode => (st, (write_code_and_run_tests env 0 fname cachedCode).2)
  | none =>
    let r := processLoop env content fname testHash 5 0 "" [] st.cache
    (⟨r.1, st.initial_run_complete⟩, r.2)

/-- Result of one inner retry loop of `process_test_failures`: the recorded
events, the next oracle/runner index, and the error context that carries
over to the next file's first prompt. -/
structure LoopOut where
  events : List Event
  nextIdx : Nat
  errMsgs : String
  failedT : List String

/-- The inner `while` loop of `process_test_failures`: identical retry
structure, but it never reads or writes the cache. -/
def failuresLoop (env : Env) (testContent fname : String) :
    Nat → Nat → String → List String → LoopOut
  | 0, i, e, t => ⟨[], i, e, t⟩
  | n + 1, i, e, t =>
    let code := extract_code_from_response (env.oracleResponse i)
    let w := write_code_and_run_tests env i fname code
    if w.1.returncode = 0 then
      ⟨Event.oracleCall (buildPrompt testContent e t) :: w.2, i + 1, e, t⟩
    else
      let rest := failuresLoop env testContent fname n (i + 1)
          (pyReplace w.1.stderr "\n" " ") (extract_failing_test_names w.1.stderr)
      ⟨Event.oracleCall (buildPrompt testContent e t) :: (w.2 ++ rest.events),
       rest.nextIdx, rest.errMsgs, rest.failedT⟩

/-- The `for test_path in all_test_files` loop of `process_test_failures`:
every test file in the tests directory gets its own retry loop, with the
error context threaded from one file to the next. -/
def failuresFiles (env : Env) : List (String × String) → Nat → String → List String → List Event
  | [], _, _, _ => []
  | (fname, content) :: rest, i, e, t =>
    let r := failuresLoop env content fname 5 i e t
    r.events ++ failuresFiles env rest r.nextIdx r.errMsgs r.failedT

/-- Model of `TestWatcher.process_test_failures`: flatten the initial run's stderr,
extract the failing test names from it, then run the retry loop over every
test file.  It touches no field of the watcher state. -/
def process_test_failures (env : Env) (st : WatcherState) (stderr0 : String)
    (testFiles : List (String × String)) : WatcherState × List Event :=
  (st, failuresFiles env testFiles 0 (pyReplace stderr0 "\n" " ")
        (extract_failing_test_names stderr0))

/-- Model of `TestWatcher.initial_test_run`: run the whole suite once (recorded as a
`verify` event with an empty path filter); on a nonzero exit process the
failures; finally set `initial_run_complete`. -/
def initial_test_run (env : Env) (st : WatcherState)
    (testFiles : List (String × String)) : WatcherState × List Event :=
  let vr := env.initialRunResult
  let r :=
    if vr.returncode ≠ 0 then process_test_failures env st vr.stderr testFiles
    else (st, [])
  (⟨r.1.cache, true⟩,
   Event.verify "" vr.returncode vr.stderr :: r.2)

/-- Model of `TestWatcher.on_modified`: forward modification events on `*.test.ts`
files to `process_test_file`, but only once `initial_run_complete` is set;
until then the handler does nothing. -/
def on_modified (env : Env) (st : WatcherState) (isDirectory : Bool)
    (srcPath content : String) : WatcherState × List Event :=
  if st.initial_run_complete then
    if !isDirectory && endsWithStr srcPath ".test.ts" then
      process_test_file env st (baseName srcPath) content
    else (st, [])
  else (st, [])

/-- Number of generation-oracle invocations recorded in a trace. -/
def countOracle : List Event → Nat
  | [] => 0
  | Event.oracleCall _ :: rest => countOracle rest + 1
  | _ :: rest => countOracle rest

/-- Number of verification runs recorded in a trace. -/
def countVerify : List Event → Nat
  | [] => 0
  | Event.verify _ _ _ :: rest => countVerify rest + 1
  | _ :: rest => countVerify rest

/-- Number of cache insertions recorded in a trace. -/
def countInserts : List Event → Nat
  | [] => 0
  | Event.cacheInsert _ _ :: rest => countInserts rest + 1
  | _ :: rest => countInserts rest

/-- A cache insertion is justified when the two immediately preceding events
wrote exactly the inserted code to the destination of some specification and
verified that specification with exit code 0. -/
def stepOk : Event → Option Event → Option Event → Bool
  | Event.cacheInsert _ icode, some (Event.write wpath wcode), some (Event.verify tpath rc _) =>
    decide (wcode = icode) && decide (wpath = destName tpath) && decide (rc = 0)
  | Event.cacheInsert _ _, _, _ => false
  | _, _, _ => true

/-- Scan of a trace checking `stepOk` at every event, carrying the previous
two events. -/
def insertsJustifiedAux : Option Event → Option Event → List Event → Bool
  | _, _, [] => true
  | pp, p, e :: rest => stepOk e pp p && insertsJustifiedAux p (some e) rest

/-- Every cache insertion in the trace is immediately preceded by a write of
the same code and a passing verification of the owning specification. -/
def insertsJustified (l : List Event) : Bool :=
  insertsJustifiedAux none none l

/-- Environment in which every verification fails with exit code 1. -/
def failEnv : Env :=
  { hashFn := fun _ => "H"
    oracleResponse := fun _ => "resp"
    verifyOutcome := fun _ => ⟨1, "boom"⟩
    initialRunResult := ⟨1, "boom"⟩ }

/-- Environment in which every verification passes. -/
def passEnv : Env :=
  { hashFn := fun _ => "H"
    oracleResponse := fun _ => "resp"
    verifyOutcome := fun _ => ⟨0, ""⟩
    initialRunResult := ⟨0, ""⟩ }

/-- Watcher state whose cache already holds the fingerprint "H". -/
def hitState : WatcherState := ⟨[("H", "cached")], true⟩

/-- Watcher state with an empty cache, past the initial run. -/
def emptyState : WatcherState := ⟨[], true⟩

/-- Watcher state before the initial run has completed. -/
def freshState : WatcherState := ⟨[], false⟩

lemma countOracle_append (a b : List Event) :
    countOracle (a ++ b) = countOracle a + countOracle b := by
  induction a with
  | nil => simp [countOracle]
  | cons e rest ih => cases e <;> simp [countOracle, ih]; omega

lemma countVerify_append (a b : List Event) :
    countVerify (a ++ b) = countVerify a + countVerify b := by
  induction a with
  | nil => simp [countVerify]
  | cons e rest ih => cases e <;> simp [countVerify, ih]; omega

lemma countInserts_append (a b : List Event) :
    countInserts (a ++ b) = countInserts a + countInserts b := by
  induction a with
  | nil => simp [countInserts]
  | cons e rest ih => cases e <;> simp [countInserts, ih]; omega

lemma processLoop_oracle_le (env : Env) (tc fn th : String) :
    ∀ n i e t cache, countOracle (processLoop env tc fn th n i e t cache).2 ≤ n := by
  intro n
  induction n with
  | zero => intro i e t cache; simp [processLoop, countOracle]
  | succ n ih =>
    intro i e t cache
    simp only [processLoop, write_code_and_run_tests]
    split
    · simp [countOracle, countOracle_append]
    · split <;> simp [countOracle, countOracle_append] <;> exact ih _ _ _ _

lemma processLoop_oracle_eq (env : Env) (tc fn th : String) :
    ∀ n i e t cache, (∀ k, k < n → (env.verifyOutcome (i + k)).returncode ≠ 0) →
      countOracle (processLoop env tc fn th n i e t cache).2 = n := by
  intro n
  induction n with
  | zero => intro i e t cache _; simp [processLoop, countOracle]
  | succ n ih =>
    intro i e t cache hfail
    have h0 : (env.verifyOutcome i).returncode ≠ 0 := by
      have := hfail 0 (Nat.succ_pos n); simpa using this
    simp only [processLoop, write_code_and_run_tests]
    split
    · exact absurd (by assumption) h0
    · have hrec : ∀ k, k < n → (env.verifyOutcome (i + 1 + k)).returncode ≠ 0 := by
        intro k hk
        have := hfail (k + 1) (by omega)
        have harith : i + (k + 1) = i + 1 + k := by omega
        rwa [harith] at this
      split <;>
        simp [countOracle, countOracle_append, ih (i + 1) _ _ _ hrec]

lemma failuresLoop_oracle_le (env : Env) (tc fn : String) :
    ∀ n i e t, countOracle (failuresLoop env tc fn n i e t).events ≤ n := by
  intro n
  induction n with
  | zero => intro i e t; simp [failuresLoop, countOracle]
  | succ n ih =>
    intro i e t
    simp only [failuresLoop, write_code_and_run_tests]
    split
    · simp [countOracle]
    · simp only [countOracle, countOracle_append]
      have := ih (i + 1) (pyReplace (env.verifyOutcome i).stderr "\n" " ")
        (extract_failing_test_names (env.verifyOutcome i).stderr)
      simp [countOracle] at this ⊢
      omega

lemma failuresLoop_oracle_pos (env : Env) (tc fn : String) (n i : Nat) (e : String)
    (t : List String) : 1 ≤ countOracle (failuresLoop env tc fn (n + 1) i e t).events := by
  simp only [failuresLoop, write_code_and_run_tests]
  split <;> simp [countOracle, countOracle_append]

lemma failuresLoop_inserts (env : Env) (tc fn : String) :
    ∀ n i e t, countInserts (failuresLoop env tc fn n i e t).events = 0 := by
  intro n
  induction n with
  | zero => intro i e t; simp [failuresLoop, countInserts]
  | succ n ih =>
    intro i e t
    simp only [failuresLoop, write_code_and_run_tests]
    split <;> simp [countInserts, countInserts_append, ih]

lemma failuresFiles_oracle_lower (env : Env) :
    ∀ files i e t, files.length ≤ countOracle (failuresFiles env files i e t) := by
  intro files
  induction files with
  | nil => intro i e t; simp [failuresFiles, countOracle]
  | cons f rest ih =>
    intro i e t
    obtain ⟨fname, content⟩ := f
    simp only [failuresFiles, countOracle_append, List.length_cons]
    have h1 : 1 ≤ countOracle (failuresLoop env content fname 5 i e t).events :=
      failuresLoop_oracle_pos env content fname 4 i e t
    have h2 := ih (failuresLoop env content fname 5 i e t).nextIdx
      (failuresLoop env content fname 5 i e t).errMsgs
      (failuresLoop env content fname 5 i e t).failedT
    omega

lemma failuresFiles_oracle_upper (env : Env) :
    ∀ files i e t, countOracle (failuresFiles env files i e t) ≤ 5 * files.length := by
  intro files
  induction files with
  | nil => intro i e t; simp [failuresFiles, countOracle]
  | cons f rest ih =>
    intro i e t
    obtain ⟨fname, content⟩ := f
    simp only [failuresFiles, countOracle_append, List.length_cons]
    have h1 := failuresLoop_oracle_le env content fname 5 i e t
    have h2 := ih (failuresLoop env content fname 5 i e t).nextIdx
      (failuresLoop env content fname 5 i e t).errMsgs
      (failuresLoop env content fname 5 i e t).failedT
    omega

lemma failuresFiles_inserts (env : Env) :
    ∀ files i e t, countInserts (failuresFiles env files i e t) = 0 := by
  intro files
  induction files with
  | nil => intro i e t; simp [failuresFiles, countInserts]
  | cons f rest ih =>
    intro i e t
    obtain ⟨fname, content⟩ := f
    simp [failuresFiles, countInserts_append, failuresLoop_inserts, ih]

lemma processLoop_justified (env : Env) (tc fn th : String) :
    ∀ n i e t cache pp p,
      insertsJustifiedAux pp p (processLoop env tc fn th n i e t cache).2 = true := by
  intro n
  induction n with
  | zero => intro i e t cache pp p; simp [processLoop, insertsJustifiedAux]
  | succ n ih =>
    intro i e t cache pp p
    simp only [processLoop, write_code_and_run_tests]
    split
    · rename_i h
      simp [insertsJustifiedAux, stepOk, h]
    · split <;> simp [insertsJustifiedAux, stepOk] <;> exact ih _ _ _ _ _ _

lemma process_test_file_justified (env : Env) (st : WatcherState) (fname content : String) :
    insertsJustified (process_test_file env st fname content).2 = true := by
  rcases h : cacheLookup st.cache (env.hashFn content) with _ | code
  · simp only [process_test_file, h]
    exact processLoop_justified env content fname (env.hashFn content) 5 0 "" [] st.cache none none
  · simp [process_test_file, h, write_code_and_run_tests, insertsJustified,
      insertsJustifiedAux, stepOk]

lemma failuresLoop_head (env : Env) (tc fn : String) (n i : Nat) (e : String)
    (t : List String) :
    ∃ tl, (failuresLoop env tc fn (n + 1) i e t).events =
      Event.oracleCall (buildPrompt tc e t) :: tl := by
  simp only [failuresLoop, write_code_and_run_tests]
  split
  · exact ⟨_, rfl⟩
  · exact ⟨_, rfl⟩

lemma startsWithList_self_append : ∀ l r : List Char, startsWithList l (l ++ r) = true := by
  intro l
  induction l with
  | nil => intro r; rfl
  | cons c cs ih => intro r; simp [startsWithList, ih]

lemma searchCodeBlock_skip :
    ∀ pre rest : List Char, (∀ c ∈ pre, c ≠ btick) →
      searchCodeBlock (pre ++ rest) = searchCodeBlock rest := by
  intro pre
  induction pre with
  | nil => intro rest _; rfl
  | cons p pre ih =>
    intro rest h
    have hp : decide (btick = p) = false := by
      simp only [decide_eq_false_iff_not]
      exact fun e => h p (List.mem_cons_self p pre) e.symm
    simp only [List.cons_append, searchCodeBlock, fence, startsWithList, hp,
      Bool.false_and, Bool.false_eq_true, if_false]
    exact ih rest (fun c hc => h c (List.mem_cons_of_mem p hc))

lemma dropAlpha_alpha_append :
    ∀ tag rest : List Char, (∀ c ∈ tag, isAsciiAlpha c = true) →
      dropAlpha (tag ++ '\n' :: rest) = '\n' :: rest := by
  intro tag
  induction tag with
  | nil =>
    intro rest _
    simp [dropAlpha, isAsciiAlpha]
  | cons a tag ih =>
    intro rest h
    have ha : isAsciiAlpha a = true := h a (List.mem_cons_self a tag)
    simp only [List.cons_append, dropAlpha, ha, if_true]
    exact ih rest (fun c hc => h c (List.mem_cons_of_mem a hc))

lemma startsWith_fence_shift (l suf : List Char) (h : startsWithList fence l = false) :
    startsWithList fence (l ++ '\n' :: (fence ++ suf)) = false := by
  have hnl : decide (btick = '\n') = false := by decide
  rcases l with _ | ⟨a, _ | ⟨b, _ | ⟨c, rest⟩⟩⟩
  · simp [fence, startsWithList, hnl]
  · simp [fence, startsWithList, hnl]
  · simp [fence, startsWithList, hnl]
  · simp only [fence, startsWithList, List.cons_append] at h ⊢
    simpa using h

lemma splitAtCloseFence_boundary :
    ∀ T suf : List Char, hasCloseFence T = false →
      splitAtCloseFence (T ++ '\n' :: (fence ++ suf)) = some (T, suf) := by
  intro T
  induction T with
  | nil =>
    intro suf _
    simp only [List.nil_append, splitAtCloseFence, startsWithList_self_append,
      decide_True, Bool.true_and, if_true]
    simp [fence]
  | cons t T ih =>
    intro suf h
    have h1 : (decide (t = '\n') && startsWithList fence T) = false := by
      simp only [hasCloseFence, Bool.or_eq_false_iff] at h
      exact h.1
    have h2 : hasCloseFence T = false := by
      simp only [hasCloseFence, Bool.or_eq_false_iff] at h
      exact h.2
    simp only [List.cons_append, splitAtCloseFence]
    by_cases ht : t = '\n'
    · subst ht
      have hsw : startsWithList fence T = false := by
        simpa using h1
      have hshift := startsWith_fence_shift T suf hsw
      simp only [List.append_eq, decide_True, Bool.true_and, hshift,
        Bool.false_eq_true, if_false]
      rw [ih suf h2]
    · have hd : decide (t = '\n') = false := by
        simp [ht]
      simp only [List.append_eq, hd, Bool.false_and, Bool.false_eq_true, if_false]
      rw [ih suf h2]

/-- Claim C6: a response that consists of text without backticks, then a
fenced block with an optional alphabetic language tag and interior `T` (in
which no line closes a fence), then anything else, extracts to exactly `T`;
the result does not depend on the tag. -/
theorem extract_roundtrip (s : String) (pre tag T suf : List Char)
    (hs : s.toList = pre ++ (fence ++ (tag ++ ('\n' :: (T ++ ('\n' :: (fence ++ suf)))))))
    (hpre : ∀ c ∈ pre, c ≠ btick)
    (htag : ∀ c ∈ tag, isAsciiAlpha c = true)
    (hT : hasCloseFence T = false) :
    extract_code_from_response s = String.mk T := by
  unfold extract_code_from_response
  rw [hs, searchCodeBlock_skip pre _ hpre]
  have hfence : fence ++ (tag ++ ('\n' :: (T ++ ('\n' :: (fence ++ suf))))) =
      btick :: btick :: btick :: (tag ++ ('\n' :: (T ++ ('\n' :: (fence ++ suf))))) := by
    simp [fence]
  rw [hfence]
  simp only [searchCodeBlock]
  rw [show startsWithList fence
        (btick :: btick :: btick :: (tag ++ ('\n' :: (T ++ ('\n' :: (fence ++ suf)))))) = true by
      have := startsWithList_self_append fence
        (tag ++ ('\n' :: (T ++ ('\n' :: (fence ++ suf)))))
      simpa [fence] using this]
  have hmaf : matchAfterFence (tag ++ ('\n' :: (T ++ ('\n' :: (fence ++ suf))))) = some T := by
    unfold matchAfterFence
    rw [dropAlpha_alpha_append tag _ htag]
    simp [splitAtCloseFence_boundary T suf hT]
  simp only [if_true, List.drop_succ_cons, List.drop_zero, hmaf]

/-- Witness for C6: a concrete tagged block round-trips. -/
theorem extract_roundtrip_witness :
    extract_code_from_response "```ts\nlet x = 1\n```" = String.mk "let x = 1".toList :=
  extract_roundtrip "```ts\nlet x = 1\n```" [] "ts".toList "let x = 1".toList []
    (by decide) (by simp) (by decide) (by decide)

/-- Counterexample to claim C7: two failure report lines with the same title
produce two list entries — the result is not a set and duplicates are not
collapsed. -/
theorem failing_names_dup_cex :
    extract_failing_test_names "● foo › x\n● foo › y\n" = ["foo", "foo"] ∧
    ¬ (extract_failing_test_names "● foo › x\n● foo › y\n").Nodup := by
  decide

lemma stripChars_idem (l : List Char) : stripChars (stripChars l) = stripChars l := by
  have hrd : ∀ x : List Char, stripChars x =
      List.rdropWhile isPyWs (List.dropWhile isPyWs x) := by
    intro x; rfl
  rw [hrd, hrd]
  have hpre : List.rdropWhile isPyWs (List.dropWhile isPyWs l) <+:
      List.dropWhile isPyWs l :=
    List.rdropWhile_prefix _ _
  have hdw : List.dropWhile isPyWs
      (List.rdropWhile isPyWs (List.dropWhile isPyWs l)) =
      List.rdropWhile isPyWs (List.dropWhile isPyWs l) := by
    rw [List.dropWhile_eq_self_iff]
    intro hl
    have hlen : 0 < (List.dropWhile isPyWs l).length :=
      lt_of_lt_of_le hl hpre.length_le
    have hget : (List.rdropWhile isPyWs (List.dropWhile isPyWs l)).get ⟨0, hl⟩ =
        (List.dropWhile isPyWs l).get ⟨0, hlen⟩ := by
      simpa using hpre.getElem (by simpa using hl)
    rw [hget]
    exact List.dropWhile_get_zero_not isPyWs l hlen
  rw [hdw, List.rdropWhile_idempotent]

/-- Claim C7 as amended: `extract_failing_test_names` returns the matched
titles trimmed of whitespace, in order of appearance, as a list in which
repeated names yield repeated entries; every returned name is trimmed. -/
theorem failing_names_trimmed (s name : String)
    (h : name ∈ extract_failing_test_names s) :
    String.mk (stripChars name.toList) = name := by
  simp only [extract_failing_test_names, List.mem_map] at h
  obtain ⟨g, _, rfl⟩ := h
  rw [show (String.mk (stripChars g)).toList = stripChars g from rfl, stripChars_idem]

/-- Witness for the amended C7 on a concrete diagnostic. -/
theorem failing_names_trimmed_witness :
    ("foo" : String) ∈ extract_failing_test_names "● foo › x\n" ∧
    String.mk (stripChars ("foo" : String).toList) = "foo" :=
  ⟨by decide, failing_names_trimmed "● foo › x\n" "foo" (by decide)⟩

/-- Whether the pattern occurs anywhere in the text. -/
def hasOccur (pat : List Char) : List Char → Bool
  | [] => startsWithList pat []
  | c :: cs => startsWithList pat (c :: cs) || hasOccur pat cs

lemma startsWithList_append_long (p : List Char) :
    ∀ l r : List Char, p.length ≤ l.length →
      startsWithList p (l ++ r) = startsWithList p l := by
  induction p with
  | nil => intro l r _; rfl
  | cons x ps ih =>
    intro l r h
    cases l with
    | nil => simp at h
    | cons c cs =>
      simp only [List.cons_append, List.append_eq, startsWithList]
      rw [ih cs r (by simpa using h)]

lemma startsWith_tsTestPat_shift_short :
    ∀ l : List Char, l ≠ [] → l.length < 8 →
      startsWithList tsTestPat (l ++ tsTestPat) = false := by
  intro l hne hlen
  rcases l with _ | ⟨a, _ | ⟨b, _ | ⟨c, _ | ⟨d, _ | ⟨e, _ | ⟨f, _ | ⟨g, _ | ⟨k, rest⟩⟩⟩⟩⟩⟩⟩⟩
  · exact absurd rfl hne
  · simp [tsTestPat, startsWithList]
  · simp [tsTestPat, startsWithList]
  · simp [tsTestPat, startsWithList]
  · simp [tsTestPat, startsWithList]
  · simp [tsTestPat, startsWithList]
  · simp [tsTestPat, startsWithList]
  · simp [tsTestPat, startsWithList]
  · simp only [List.length_cons] at hlen
    omega

lemma replaceAllF_nil (pat rep : List Char) (f : Nat) :
    replaceAllF pat rep f [] = [] := by
  cases f <;> rfl

lemma replaceAllF_boundary :
    ∀ base : List Char, ∀ fuel : Nat, (base ++ tsTestPat).length ≤ fuel →
      hasOccur tsTestPat base = false →
      replaceAllF tsTestPat tsPat fuel (base ++ tsTestPat) = base ++ tsPat := by
  intro base
  induction base with
  | nil =>
    intro fuel hf _
    cases fuel with
    | zero => simp [tsTestPat] at hf
    | succ f =>
      simp [tsTestPat, tsPat, replaceAllF, startsWithList, replaceAllF_nil]
  | cons b base ih =>
    intro fuel hf h
    have hsw : startsWithList tsTestPat (b :: base) = false := by
      simp only [hasOccur, Bool.or_eq_false_iff] at h
      exact h.1
    have h2 : hasOccur tsTestPat base = false := by
      simp only [hasOccur, Bool.or_eq_false_iff] at h
      exact h.2
    have hshift : startsWithList tsTestPat ((b :: base) ++ tsTestPat) = false := by
      by_cases hlen : tsTestPat.length ≤ (b :: base).length
      · rw [startsWithList_append_long tsTestPat (b :: base) tsTestPat hlen]
        exact hsw
      · refine startsWith_tsTestPat_shift_short (b :: base) (by simp) ?_
        simp only [tsTestPat, List.length_cons, List.length_nil] at hlen ⊢
        omega
    cases fuel with
    | zero => simp at hf
    | succ f =>
      have hc : (decide (0 < tsTestPat.length) &&
          startsWithList tsTestPat (b :: (base ++ tsTestPat))) = false := by
        simp only [List.cons_append] at hshift
        simp [hshift]
      simp only [List.cons_append, List.append_eq, replaceAllF, hc,
        Bool.false_eq_true, if_false]
      rw [ih f (by simpa using Nat.le_of_succ_le_succ hf) h2]

/-- Counterexample to claim C8: for the specification filename
`x.test.ts.test.ts` (of the form name + `.test.ts` with name `x.test.ts`)
the code replaces every occurrence, producing `x.ts.ts`, not the suffix
substitution `x.test.ts.ts`. -/
theorem dest_name_all_occurrences_cex :
    destName "x.test.ts.test.ts" = "x.ts.ts" ∧
    ("x.ts.ts" : String) ≠ "x.test.ts.ts" := by
  decide

/-- Claim C8 as amended: the destination filename replaces every occurrence
of `.test.ts` by `.ts`; when the name part contains no other occurrence of
`.test.ts`, this coincides with the claimed suffix substitution and every
other character is left unchanged. -/
theorem dest_name_suffix (base : List Char)
    (h : hasOccur tsTestPat base = false) :
    destName (String.mk (base ++ tsTestPat)) = String.mk (base ++ tsPat) := by
  unfold destName pyReplace replaceAll
  have hp : (".test.ts" : String).toList = tsTestPat := by decide
  have hr : (".ts" : String).toList = tsPat := by decide
  rw [show (String.mk (base ++ tsTestPat)).toList = base ++ tsTestPat from rfl, hp, hr,
    replaceAllF_boundary base (base ++ tsTestPat).length (le_refl _) h]

/-- Witness for the amended C8 on a concrete filename. -/
theorem dest_name_suffix_witness :
    hasOccur tsTestPat ("calculator".toList) = false ∧
    destName (String.mk ("calculator".toList ++ tsTestPat)) =
      String.mk ("calculator".toList ++ tsPat) :=
  ⟨by decide, dest_name_suffix ("calculator".toList) (by decide)⟩

/-- Claim C1: a unit processed by the synthesis loop invokes the generation
oracle at most 5 times before reaching a terminal state; in the per-file
initial-failure pass the bound is 5 per test file; and when the cache misses
and the first 5 verification runs all fail, exactly 5 oracle calls occur —
the unit stops there with no 6th attempt. -/
theorem attempt_bound :
    (∀ env st fname content,
       countOracle (process_test_file env st fname content).2 ≤ 5) ∧
    (∀ env st stderr0 files,
       countOracle (process_test_failures env st stderr0 files).2 ≤ 5 * files.length) ∧
    (∀ env st fname content,
       cacheLookup st.cache (env.hashFn content) = none →
       (∀ i, i < 5 → (env.verifyOutcome i).returncode ≠ 0) →
       countOracle (process_test_file env st fname content).2 = 5) := by
  refine ⟨?_, ?_, ?_⟩
  · intro env st fname content
    rcases h : cacheLookup st.cache (env.hashFn content) with _ | code
    · simp only [process_test_file, h]
      exact processLoop_oracle_le env content fname (env.hashFn content) 5 0 "" [] st.cache
    · simp [process_test_file, h, write_code_and_run_tests, countOracle]
  · intro env st stderr0 files
    simp only [process_test_failures]
    exact failuresFiles_oracle_upper env files 0 (pyReplace stderr0 "\n" " ")
      (extract_failing_test_names stderr0)
  · intro env st fname content hmiss hfail
    simp only [process_test_file, hmiss]
    exact processLoop_oracle_eq env content fname (env.hashFn content) 5 0 "" [] st.cache
      (by intro k hk; simpa using hfail k hk)

/-- Witness for C1: in the always-failing environment with an empty cache a
file reconciliation performs exactly 5 oracle calls. -/
theorem attempt_bound_witness :
    countOracle (process_test_file failEnv emptyState "f.test.ts" "spec").2 = 5 :=
  attempt_bound.2.2 failEnv emptyState "f.test.ts" "spec" (by decide)
    (fun i _ => by simp [failEnv])

/-- Claim C2: when the content fingerprint is in the cache, a whole-file
reconciliation performs zero oracle calls — it only writes the cached
candidate to the destination and verifies it, leaving the state unchanged. -/
theorem cache_hit_skips_generation (env : Env) (st : WatcherState)
    (fname content code : String)
    (h : cacheLookup st.cache (env.hashFn content) = some code) :
    (process_test_file env st fname content).2 =
      [Event.write (destName fname) code,
       Event.verify fname (env.verifyOutcome 0).returncode (env.verifyOutcome 0).stderr] ∧
    countOracle (process_test_file env st fname content).2 = 0 ∧
    (process_test_file env st fname content).1 = st := by
  simp [process_test_file, h, write_code_and_run_tests, countOracle]

/-- Witness for C2: a concrete cache hit yields zero oracle calls. -/
theorem cache_hit_skips_generation_witness :
    cacheLookup hitState.cache (passEnv.hashFn "spec") = some "cached" ∧
    countOracle (process_test_file passEnv hitState "f.test.ts" "spec").2 = 0 :=
  ⟨by decide,
   (cache_hit_skips_generation passEnv hitState "f.test.ts" "spec" "cached" (by decide)).2.1⟩

/-- Counterexample to claim C3: in a concrete run where the cached candidate
fails re-verification, the cache entry is still present afterwards and no
fallback generation happens — contradicting the claimed eviction and
fallback to Drafting. -/
theorem stale_cache_not_evicted_cex :
    (failEnv.verifyOutcome 0).returncode ≠ 0 ∧
    cacheLookup hitState.cache (failEnv.hashFn "spec") = some "cached" ∧
    (process_test_file failEnv hitState "f.test.ts" "spec").1.cache = [("H", "cached")] ∧
    countOracle (process_test_file failEnv hitState "f.test.ts" "spec").2 = 0 := by
  decide

/-- Claim C3 as amended: when a cached candidate is written during a
whole-file reconciliation and its re-verification fails, the controller
returns immediately — the cache entry for the fingerprint remains present
and no Drafting (generation) fallback occurs. -/
theorem stale_cache_kept (env : Env) (st : WatcherState) (fname content code : String)
    (h : cacheLookup st.cache (env.hashFn content) = some code)
    (_hfail : (env.verifyOutcome 0).returncode ≠ 0) :
    (process_test_file env st fname content).1 = st ∧
    cacheLookup (process_test_file env st fname content).1.cache
      (env.hashFn content) = some code ∧
    countOracle (process_test_file env st fname content).2 = 0 := by
  simp [process_test_file, h, write_code_and_run_tests, countOracle]

/-- Witness for the amended C3 at a concrete stale-cache run. -/
theorem stale_cache_kept_witness :
    cacheLookup (process_test_file failEnv hitState "g.test.ts" "spec").1.cache
      (failEnv.hashFn "spec") = some "cached" :=
  (stale_cache_kept failEnv hitState "g.test.ts" "spec" "cached" (by decide) (by decide)).2.1

/-- Counterexample to claim C4: re-running the reconciliation on an
unchanged specification whose fingerprint is cached (the state reached after
full acceptance — the code keeps no per-test ledger) performs one
verification run, not zero; all tests pass on that run. -/
theorem rerun_not_free_cex :
    cacheLookup hitState.cache (passEnv.hashFn "spec") = some "cached" ∧
    (passEnv.verifyOutcome 0).returncode = 0 ∧
    countVerify (process_test_file passEnv hitState "g.test.ts" "spec").2 = 1 := by
  decide

/-- Claim C4 as amended: re-running the reconciliation on an unchanged
specification whose fingerprint has a cache entry performs zero oracle
invocations but exactly one verification run (the cached candidate is
re-written and re-verified). -/
theorem cache_hit_single_verify (env : Env) (st : WatcherState)
    (fname content code : String)
    (h : cacheLookup st.cache (env.hashFn content) = some code) :
    countOracle (process_test_file env st fname content).2 = 0 ∧
    countVerify (process_test_file env st fname content).2 = 1 := by
  simp [process_test_file, h, write_code_and_run_tests, countOracle, countVerify]

/-- Witness for the amended C4 at a concrete cached re-run. -/
theorem cache_hit_single_verify_witness :
    countOracle (process_test_file passEnv hitState "h.test.ts" "spec").2 = 0 ∧
    countVerify (process_test_file passEnv hitState "h.test.ts" "spec").2 = 1 :=
  cache_hit_single_verify passEnv hitState "h.test.ts" "spec" "cached" (by decide)

/-- Claim C5: when the initial suite run fails, the controller processes the
failure diagnostics — the trace is the suite verification followed by the
failure pass; the failing test names extracted from the diagnostics feed the
first synthesis prompt; and the synthesis loop runs for every specification
file (at least one oracle call each — no unit is recorded as pass at
startup, so every unit is synthesized). -/
theorem initial_failure_synthesizes_all :
    (∀ env st files, env.initialRunResult.returncode ≠ 0 →
       (initial_test_run env st files).2 =
         Event.verify "" env.initialRunResult.returncode env.initialRunResult.stderr ::
           (process_test_failures env st env.initialRunResult.stderr files).2) ∧
    (∀ env st stderr0 files,
       files.length ≤ countOracle (process_test_failures env st stderr0 files).2) ∧
    (∀ env st stderr0 fname content rest,
       (process_test_failures env st stderr0
           ((fname, content) :: rest)).2.head? =
         some (Event.oracleCall (buildPrompt content (pyReplace stderr0 "\n" " ")
           (extract_failing_test_names stderr0)))) := by
  refine ⟨?_, ?_, ?_⟩
  · intro env st files h
    simp [initial_test_run, h]
  · intro env st stderr0 files
    simp only [process_test_failures]
    exact failuresFiles_oracle_lower env files 0 (pyReplace stderr0 "\n" " ")
      (extract_failing_test_names stderr0)
  · intro env st stderr0 fname content rest
    simp only [process_test_failures, failuresFiles]
    obtain ⟨tl, htl⟩ : ∃ tl,
        (failuresLoop env content fname 5 0 (pyReplace stderr0 "\n" " ")
          (extract_failing_test_names stderr0)).events =
        Event.oracleCall (buildPrompt content (pyReplace stderr0 "\n" " ")
          (extract_failing_test_names stderr0)) :: tl :=
      failuresLoop_head env content fname 4 0 (pyReplace stderr0 "\n" " ")
        (extract_failing_test_names stderr0)
    rw [htl]
    simp

/-- Witness for C5 on a concrete failing initial run. -/
theorem initial_failure_synthesizes_all_witness :
    failEnv.initialRunResult.returncode ≠ 0 ∧
    (initial_test_run failEnv emptyState []).2 =
      Event.verify "" failEnv.initialRunResult.returncode failEnv.initialRunResult.stderr ::
        (process_test_failures failEnv emptyState failEnv.initialRunResult.stderr []).2 :=
  ⟨by decide, initial_failure_synthesizes_all.1 failEnv emptyState [] (by decide)⟩

/-- Claim C9: a modification event delivered before the initial run has
completed is ignored — the handler performs no processing, records no
events, and leaves the state unchanged. -/
theorem events_gated_until_initial_run (env : Env) (st : WatcherState)
    (isDir : Bool) (p c : String) (h : st.initial_run_complete = false) :
    on_modified env st isDir p c = (st, []) := by
  simp [on_modified, h]

/-- Witness for C9 on the startup state. -/
theorem events_gated_until_initial_run_witness :
    freshState.initial_run_complete = false ∧
    on_modified failEnv freshState false "tests/f.test.ts" "x" = (freshState, []) :=
  ⟨rfl, events_gated_until_initial_run failEnv freshState false "tests/f.test.ts" "x" rfl⟩

/-- Claim C10: every cache insertion in any trace of `process_test_file` (or
of the dispatcher `on_modified`) is immediately preceded by the write of
exactly that code to the owning specification's destination and a
verification run that exited 0; and neither `process_test_failures` nor
`initial_test_run` ever inserts a cache entry. -/
theorem cache_insert_justified :
    (∀ env st fname content,
       insertsJustified (process_test_file env st fname content).2 = true) ∧
    (∀ env st stderr0 files,
       countInserts (process_test_failures env st stderr0 files).2 = 0) ∧
    (∀ env st isDir p c,
       insertsJustified (on_modified env st isDir p c).2 = true) ∧
    (∀ env st files,
       countInserts (initial_test_run env st files).2 = 0) := by
  refine ⟨?_, ?_, ?_, ?_⟩
  · intro env st fname content
    exact process_test_file_justified env st fname content
  · intro env st stderr0 files
    simp only [process_test_failures]
    exact failuresFiles_inserts env files 0 (pyReplace stderr0 "\n" " ")
      (extract_failing_test_names stderr0)
  · intro env st isDir p c
    simp only [on_modified]
    split
    · split
      · exact process_test_file_justified env st (baseName p) c
      · simp [insertsJustified, insertsJustifiedAux]
    · simp [insertsJustified, insertsJustifiedAux]
  · intro env st files
    simp only [initial_test_run]
    split <;>
      simp [countInserts, process_test_failures, failuresFiles_inserts]

end Tdd
